import Mathlib

/-!
# TraverseModelFile: the tree-printing visitor

A shallow embedding of `myTreeVisitor` and `traverseModelFile` from
`ImportExport.cpp`, with the console as an explicit text accumulator and the
level counter as a 32-bit C `int`.
-/

namespace TraverseModelFile

/-! ## Machine integers -/

/-- Largest value of the C type `int` (32 bits). -/
def INT_MAX : Int := 2147483647

/-- Smallest value of the C type `int` (32 bits). -/
def INT_MIN : Int := -2147483648

/-- A value of the C type `int`: an integer inside the 32-bit signed range. -/
structure CInt where
  val : Int
  inRange : INT_MIN ≤ val ∧ val ≤ INT_MAX
deriving DecidableEq

/-- Reduction of an integer into the `int` range modulo `2^32`. Signed overflow is
undefined in C++; the embedding takes the result every mainstream compiler gives. -/
def CInt.wrap (x : Int) : CInt :=
  ⟨(x + 2147483648) % 4294967296 - 2147483648, by unfold INT_MIN INT_MAX; omega⟩

/-- The initial value written `int m_iLevel = 0`. -/
def CInt.zero : CInt := ⟨0, by decide⟩

/-- The statement `m_iLevel++`. -/
def CInt.incr (a : CInt) : CInt := CInt.wrap (a.val + 1)

/-- The statement `m_iLevel--`. -/
def CInt.decr (a : CInt) : CInt := CInt.wrap (a.val - 1)

/-- Conversion `int -> unsigned int`, as applied to `m_iLevel` by the comparison
`i < m_iLevel` when `i` is an `unsigned int`. -/
def CInt.toUnsigned (a : CInt) : Nat := (a.val % 4294967296).toNat

/-! ## The SDK types the visitor touches -/

/-- Status code `A3DStatus`; `A3D_SUCCESS` is zero. -/
abbrev A3DStatus := Int

/-- The success status. -/
def A3D_SUCCESS : A3DStatus := 0

/-- The part of `ColorMaterialsConnector` the visitor reads: the answer of `IsShow()`. -/
structure ColorMaterialsConnector where
  IsShow : Bool
deriving DecidableEq, Repr

/-- The SDK matrix `A3DMatrix4x4`: sixteen doubles `m_adM[0..15]`, over an abstract
carrier `D` of double values. -/
structure A3DMatrix4x4 (D : Type) where
  m_adM : Fin 16 → D

/-- What the visitor obtains from `m_psContainer`. Each field is `none` when
`GetVisitorByName` returns `NULL` for that name, and otherwise holds what the peer
hands out: the connector filled by `GetColorMaterialConnector`, and the matrix filled
by `GetTransfoConnector()->GetGlobalTransfo`. -/
structure A3DVisitorContainer (D : Type) where
  cascadedAttribute : Option ColorMaterialsConnector
  transformation : Option (A3DMatrix4x4 D)

/-! ## The visitor -/

/-- The class `myTreeVisitor`: its only data member is the level counter. -/
structure myTreeVisitor where
  m_iLevel : CInt
deriving DecidableEq

/-- A freshly constructed visitor (`int m_iLevel = 0`). -/
def myTreeVisitor.new : myTreeVisitor := ⟨CInt.zero⟩

/-- Outcome of one callback: the returned status, the visitor afterwards and the text
printed during the call. -/
structure Visited where
  iRet : A3DStatus
  self : myTreeVisitor
  out : String
deriving DecidableEq

/-- The loop `for (i = 0; i < bound; i++) _tprintf(_T("+ "))`, given the number of
iterations it makes, appending to the text printed so far. -/
def printMarkers : Nat → String → String
  | 0, out => out
  | n + 1, out => printMarkers n (out ++ "+ ")

/-- Number of UTF-16 code units (`A3DUniChar`) a text occupies: one per character of
the basic plane, two per character beyond it. -/
def utf16Units (s : String) : Nat :=
  (s.data.map (fun ch => if ch.val.toNat < 65536 then 1 else 2)).sum

/-- The name buffer `A3DUniChar acName[256]` after lines 75 to 79: `NO_NAME` when
`m_pcName` is null, otherwise the converted name. The conversion `A3DMiscUTF8ToUTF16`
belongs to the SDK and is a parameter; it is handed no size, so a converted name that
together with its terminator needs more than the 256 units of the buffer overruns it:
the result is then `none`. -/
def acName (A3DMiscUTF8ToUTF16 : String → String) (m_pcName : Option String) :
    Option String :=
  match m_pcName with
  | some pcName =>
    let converted := A3DMiscUTF8ToUTF16 pcName
    if utf16Units converted + 1 ≤ 256 then some converted else none
  | none => some "NO_NAME"

/-- The method `visitEnter(const A3DProductOccurrenceConnector&)`. `base` is the status
returned by `A3DTreeVisitor::visitEnter` (the base class cannot reach the private
counter), `m_pcName` the name in the root base data. The marker loop runs over a signed
`i`, so it makes `m_iLevel` iterations, none when the counter is not positive. The
result is `none` when the conversion of the name overruns the buffer `acName`. -/
def myTreeVisitor.visitEnterProductOccurrence {D : Type}
    (A3DMiscUTF8ToUTF16 : String → String) (self : myTreeVisitor) (base : A3DStatus)
    (m_pcName : Option String) (m_psContainer : A3DVisitorContainer D) : Option Visited :=
  let iRet := base
  let m_iLevel := self.m_iLevel.incr
  match acName A3DMiscUTF8ToUTF16 m_pcName with
  | none => none
  | some acName =>
    let out := printMarkers m_iLevel.val.toNat ""
    let out := out ++ acName
    let out :=
      match m_psContainer.cascadedAttribute with
      | some sColorConnector =>
        if sColorConnector.IsShow then out ++ "\n" else out ++ " (Hidden)\n"
      | none => out
    some ⟨iRet, ⟨m_iLevel⟩, out⟩

/-- The method `visitEnter(const A3DPartConnector&)`. The result is `none` when the
null pointer returned by the lookup of `Transformation` is dereferenced. `fmt3` renders
one double under the conversion `%.3f`. The marker loop runs over an `unsigned int i`,
so its bound is the counter converted to `unsigned`. -/
def myTreeVisitor.visitEnterPart {D : Type}
    (fmt3 : D → String) (self : myTreeVisitor) (base : A3DStatus)
    (m_psContainer : A3DVisitorContainer D) : Option Visited :=
  let iRet := base
  match m_psContainer.transformation with
  | none => none
  | some sTransfo =>
    let out := printMarkers self.m_iLevel.toUnsigned ""
    let out := out ++ " (" ++ fmt3 (sTransfo.m_adM 12) ++ ", " ++ fmt3 (sTransfo.m_adM 13)
      ++ ", " ++ fmt3 (sTransfo.m_adM 14) ++ ")\n"
    some ⟨iRet, self, out⟩

/-- The method `visitLeave(const A3DProductOccurrenceConnector&)`. `base` is the status
returned by `A3DTreeVisitor::visitLeave`. -/
def myTreeVisitor.visitLeaveProductOccurrence (self : myTreeVisitor) (base : A3DStatus) :
    Visited :=
  let m_iLevel := self.m_iLevel.decr
  let iRet := base
  ⟨iRet, ⟨m_iLevel⟩, ""⟩

/-! ## Sequences of product-occurrence callbacks -/

/-- One callback on a product occurrence, with everything the call reads. -/
inductive POCall (D : Type) where
  | enter (base : A3DStatus) (m_pcName : Option String)
      (m_psContainer : A3DVisitorContainer D)
  | leave (base : A3DStatus)

/-- The visitor method a callback invokes; `none` when the method faults. -/
def POCall.apply {D : Type} (A3DMiscUTF8ToUTF16 : String → String) (self : myTreeVisitor) :
    POCall D → Option Visited
  | .enter base m_pcName m_psContainer =>
    self.visitEnterProductOccurrence A3DMiscUTF8ToUTF16 base m_pcName m_psContainer
  | .leave base => some (self.visitLeaveProductOccurrence base)

/-- The visitor after a sequence of callbacks, together with all the text printed;
`none` when one of the callbacks faults. -/
def run {D : Type} (A3DMiscUTF8ToUTF16 : String → String) (self : myTreeVisitor) :
    List (POCall D) → Option (myTreeVisitor × String)
  | [] => some (self, "")
  | c :: cs =>
    match c.apply A3DMiscUTF8ToUTF16 self with
    | none => none
    | some v =>
      match run A3DMiscUTF8ToUTF16 v.self cs with
      | none => none
      | some r => some (r.1, v.out ++ r.2)

/-- Number of `visitEnter` calls in a sequence. -/
def entered {D : Type} : List (POCall D) → Nat
  | [] => 0
  | .enter _ _ _ :: cs => entered cs + 1
  | .leave _ :: cs => entered cs

/-- Number of `visitLeave` calls in a sequence. -/
def exited {D : Type} : List (POCall D) → Nat
  | [] => 0
  | .enter _ _ _ :: cs => exited cs
  | .leave _ :: cs => exited cs + 1

/-- A sequence is well nested when no initial segment leaves more occurrences than it
entered, and the whole sequence leaves every occurrence it entered. -/
def WellNested {D : Type} (cs : List (POCall D)) : Prop :=
  (∀ pre ∈ cs.inits, exited pre ≤ entered pre) ∧ entered cs = exited cs

/-- The nesting depth never exceeds what the `int` counter can hold. -/
def FitsInt {D : Type} (cs : List (POCall D)) : Prop :=
  ∀ pre ∈ cs.inits, (entered pre : Int) - (exited pre : Int) ≤ INT_MAX

/-- The converted name of a node has at most 255 units, so that it fits the buffer
`acName` together with its terminator; a node without a name always fits. -/
def nameFits (A3DMiscUTF8ToUTF16 : String → String) : Option String → Bool
  | some pcName => decide (utf16Units (A3DMiscUTF8ToUTF16 pcName) ≤ 255)
  | none => true

/-- The name of the node entered by a callback fits the buffer. -/
def POCall.nameFits {D : Type} (A3DMiscUTF8ToUTF16 : String → String) : POCall D → Bool
  | .enter _ m_pcName _ => TraverseModelFile.nameFits A3DMiscUTF8ToUTF16 m_pcName
  | .leave _ => true

/-- Every node entered in the sequence has a name that fits the buffer. -/
def NamesFit {D : Type} (A3DMiscUTF8ToUTF16 : String → String) (cs : List (POCall D)) :
    Prop :=
  ∀ c ∈ cs, c.nameFits A3DMiscUTF8ToUTF16 = true

/-- The name of a node as it is to appear on its line: the converted name, or the
placeholder for a node without a name. -/
def nodeName (A3DMiscUTF8ToUTF16 : String → String) : Option String → String
  | some pcName => A3DMiscUTF8ToUTF16 pcName
  | none => "NO_NAME"

/-- The line ends with the hidden mark right before its newline. -/
def endsWithHidden (line : String) : Bool := " (Hidden)\n".data.isSuffixOf line.data

/-- The text made of `d` copies of the marker. -/
def markers (d : Nat) : String := String.join (List.replicate d "+ ")

/-- The text printed after the name: nothing at all without the peer,
otherwise the end of line, preceded by the hidden mark when the node is not shown. -/
def nameSuffix : Option ColorMaterialsConnector → String
  | none => ""
  | some c => if c.IsShow then "\n" else " (Hidden)\n"

/-! ## The traversal engine around the visitor

The container, the cascading accumulators and the driver live in `visitor/*.h` and
`visitor/*.cpp` files other than `ViewTraverse.h`; they are described by sections 3 and
4 of the specification. -/

/-- Modelled from the spec: the node handle of section 3 and 4.1 (the SDK model tree is
not part of the sources). An occurrence has an optional name, an optional local
transform, an optional visibility override (`some true` is an explicit hidden override,
`some false` an explicit visible one) and ordered children; a part is a leaf with an
optional local transform. A tree shares no prototype between two parents: every
instance is already expanded along its own path, which is what the `traverse-instance`
flag set by `traverseModelFile` selects. -/
inductive Node (D : Type) where
  | occurrence (name : Option String) (transfo : Option (A3DMatrix4x4 D))
      (hidden : Option Bool) (children : List (Node D))
  | part (transfo : Option (A3DMatrix4x4 D))

/-- Modelled from the spec: the visitor container of section 4.5 (`VisitorContainer.h` is
missing): the toggles selecting the tracked cascading attributes, the instancing flag,
one stack of composed values per cascading attribute (section 4.3), and the registered
tree visitor. -/
structure Container (D : Type) where
  connectTransfo : Bool
  connectColors : Bool
  traverseInstance : Bool
  transfoStack : List (A3DMatrix4x4 D)
  colorStack : List ColorMaterialsConnector
  visitor : myTreeVisitor

/-- Modelled from the spec: `push` of section 4.3 for the transform accumulator
(`VisitorTransfo.h` is missing). The composed value is the parent composed value times
the local transform; a node without a local transform keeps the parent value. The matrix
product `compose` and the `identity` matrix come from the SDK. -/
def pushTransfo {D : Type} (compose : A3DMatrix4x4 D → A3DMatrix4x4 D → A3DMatrix4x4 D)
    (identity : A3DMatrix4x4 D) (stack : List (A3DMatrix4x4 D))
    (transfo : Option (A3DMatrix4x4 D)) : List (A3DMatrix4x4 D) :=
  let parent := stack.headD identity
  match transfo with
  | some m => compose parent m :: stack
  | none => parent :: stack

/-- Modelled from the spec: `push` of section 4.3 for the color and visibility
accumulator (`VisitorCascadedAttribute.h` is missing). A node-local override replaces
the attribute; without an override the node inherits the effective value of its parent;
above the root everything is visible. -/
def pushColor (stack : List ColorMaterialsConnector) (hidden : Option Bool) :
    List ColorMaterialsConnector :=
  let parent := stack.headD ⟨true⟩
  match hidden with
  | some h => ⟨!h⟩ :: stack
  | none => parent :: stack

/-- Modelled from the spec: `lookupByName` of section 4.5 together with `top` of section
4.3: what the tree visitor sees of its peers at the current node. A peer is found
exactly when its attribute is tracked. -/
def Container.view {D : Type} (identity : A3DMatrix4x4 D) (c : Container D) :
    A3DVisitorContainer D :=
  { cascadedAttribute := if c.connectColors then some (c.colorStack.headD ⟨true⟩) else none
    transformation := if c.connectTransfo then some (c.transfoStack.headD identity) else none }

/-- Modelled from the spec: the push half of `dispatchEnter` (section 4.5): every active
accumulator pushes before any visitor callback runs. -/
def Container.push {D : Type} (compose : A3DMatrix4x4 D → A3DMatrix4x4 D → A3DMatrix4x4 D)
    (identity : A3DMatrix4x4 D) (c : Container D) (transfo : Option (A3DMatrix4x4 D))
    (hidden : Option Bool) : Container D :=
  { c with
    transfoStack :=
      if c.connectTransfo then pushTransfo compose identity c.transfoStack transfo
      else c.transfoStack
    colorStack := if c.connectColors then pushColor c.colorStack hidden else c.colorStack }

/-- Modelled from the spec: the pop half of `dispatchLeave` (section 4.5), run after the
visitor callbacks. -/
def Container.pop {D : Type} (c : Container D) : Container D :=
  { c with
    transfoStack := if c.connectTransfo then c.transfoStack.tail else c.transfoStack
    colorStack := if c.connectColors then c.colorStack.tail else c.colorStack }

/-- The SDK functions the traversal depends on. -/
structure Sdk (D : Type) where
  A3DMiscUTF8ToUTF16 : String → String
  fmt3 : D → String
  compose : A3DMatrix4x4 D → A3DMatrix4x4 D → A3DMatrix4x4 D
  identity : A3DMatrix4x4 D

/-- Result of traversing a subtree: the container afterwards, the text printed and the
status handed back to the caller. -/
structure Traversed (D : Type) where
  container : Container D
  out : String
  status : A3DStatus

mutual
/-- Modelled from the spec: the tree traversal driver of section 4.6 (the `Traverse`
methods of the connectors are missing). Enter is dispatched on the node, the children are
walked in order, then leave is dispatched; a status other than success stops the descent
and the remaining siblings while every entered node still gets its leave and pop. The
base `A3DTreeVisitor` callbacks are taken to return `A3D_SUCCESS`. The result is `none`
when a visitor callback faults. -/
def traverse {D : Type} (sdk : Sdk D) (c : Container D) : Node D → Option (Traversed D)
  | .part transfo =>
    let c := c.push sdk.compose sdk.identity transfo none
    match c.visitor.visitEnterPart sdk.fmt3 A3D_SUCCESS (c.view sdk.identity) with
    | none => none
    | some v => some ⟨{ c with visitor := v.self }.pop, v.out, v.iRet⟩
  | .occurrence name transfo hidden children =>
    let c := c.push sdk.compose sdk.identity transfo hidden
    match c.visitor.visitEnterProductOccurrence sdk.A3DMiscUTF8ToUTF16 A3D_SUCCESS name
      (c.view sdk.identity) with
    | none => none
    | some v =>
      let c := { c with visitor := v.self }
      let below : Option (Traversed D) :=
        if v.iRet = A3D_SUCCESS then traverseChildren sdk c children
        else some ⟨c, "", v.iRet⟩
      match below with
      | none => none
      | some r =>
        let w := r.container.visitor.visitLeaveProductOccurrence A3D_SUCCESS
        let status := if r.status = A3D_SUCCESS then w.iRet else r.status
        some ⟨{ r.container with visitor := w.self }.pop, v.out ++ r.out ++ w.out, status⟩
/-- Modelled from the spec: the walk over the children of a node, in the external order,
stopping at the first child whose traversal does not succeed. -/
def traverseChildren {D : Type} (sdk : Sdk D) (c : Container D) :
    List (Node D) → Option (Traversed D)
  | [] => some ⟨c, "", A3D_SUCCESS⟩
  | n :: ns =>
    match traverse sdk c n with
    | none => none
    | some r =>
      if r.status = A3D_SUCCESS then
        match traverseChildren sdk r.container ns with
        | none => none
        | some rs => some ⟨rs.container, r.out ++ rs.out, rs.status⟩
      else some r
end

/-- The function `traverseModelFile`: a container tracking transforms and colors, with
instances traversed, holding one fresh `myTreeVisitor`, is walked over the model. The
result is the text printed, or `none` when the walk faults. -/
def traverseModelFile {D : Type} (sdk : Sdk D) (pModelFile : Node D) : Option String :=
  let sA3DVisitorContainer : Container D :=
    { connectTransfo := true, connectColors := true, traverseInstance := false,
      transfoStack := [], colorStack := [], visitor := myTreeVisitor.new }
  let sA3DVisitorContainer := { sA3DVisitorContainer with traverseInstance := true }
  match traverse sdk sA3DVisitorContainer pModelFile with
  | none => none
  | some r => some r.out

/-- The tree `Root(hidden=false) -> A(hidden=true) -> B(no override)`. -/
def scenarioTree (D : Type) : Node D :=
  .occurrence (some "Root") none (some false)
    [.occurrence (some "A") none (some true)
      [.occurrence (some "B") none none []]]

/-! ## Auxiliary facts -/

theorem wrap_val_of_inRange (x : Int) (hlo : INT_MIN ≤ x) (hhi : x ≤ INT_MAX) :
    (CInt.wrap x).val = x := by
  unfold INT_MIN at hlo
  unfold INT_MAX at hhi
  simp only [CInt.wrap]
  omega

theorem incr_val (a : CInt) (h : a.val + 1 ≤ INT_MAX) : a.incr.val = a.val + 1 := by
  have hlo := a.inRange.1
  unfold INT_MIN at hlo
  exact wrap_val_of_inRange _ (by unfold INT_MIN; omega) h

theorem decr_val (a : CInt) (h : INT_MIN ≤ a.val - 1) : a.decr.val = a.val - 1 := by
  have hhi := a.inRange.2
  unfold INT_MAX at hhi
  exact wrap_val_of_inRange _ h (by unfold INT_MAX; omega)

theorem toUnsigned_of_nonneg (a : CInt) (h : 0 ≤ a.val) : a.toUnsigned = a.val.toNat := by
  have hhi := a.inRange.2
  unfold INT_MAX at hhi
  unfold CInt.toUnsigned
  congr 1
  omega

theorem CInt.ext_val (a b : CInt) (h : a.val = b.val) : a = b := by
  cases a
  cases b
  simp only at h
  subst h
  rfl

theorem markers_zero : markers 0 = "" := rfl

theorem markers_succ (d : Nat) : markers (d + 1) = "+ " ++ markers d := by
  apply String.ext
  simp [markers, List.replicate_succ]

theorem printMarkers_eq (n : Nat) : ∀ out : String, printMarkers n out = out ++ markers n := by
  induction n with
  | zero => intro out; simp [printMarkers, markers_zero]
  | succ n ih =>
    intro out
    rw [printMarkers, ih, markers_succ, String.append_assoc]

/-- A name that fits is held unchanged by the buffer. -/
theorem acName_of_nameFits (conv : String → String) (name : Option String)
    (h : nameFits conv name = true) : acName conv name = some (nodeName conv name) := by
  cases name with
  | none => rfl
  | some pcName =>
    have h255 : utf16Units (conv pcName) ≤ 255 := by simpa [nameFits] using h
    have h256 : utf16Units (conv pcName) + 1 ≤ 256 := by omega
    simp [acName, nodeName, h256]

/-- A name that does not fit overruns the buffer. -/
theorem acName_of_not_nameFits (conv : String → String) (name : Option String)
    (h : nameFits conv name = false) : acName conv name = none := by
  cases name with
  | none => simp [nameFits] at h
  | some pcName =>
    have h255 : ¬ utf16Units (conv pcName) ≤ 255 := by simpa [nameFits] using h
    have h256 : ¬ utf16Units (conv pcName) + 1 ≤ 256 := by omega
    simp [acName, h256]

/-- The occurrence callback in closed form: it returns exactly when the buffer holds
the name, with the base status, the incremented counter and the line. -/
theorem visitEnterProductOccurrence_eq {D : Type} (conv : String → String)
    (self : myTreeVisitor) (base : A3DStatus) (name : Option String)
    (c : A3DVisitorContainer D) :
    self.visitEnterProductOccurrence conv base name c
      = (acName conv name).map (fun text =>
          ⟨base, ⟨self.m_iLevel.incr⟩,
            markers self.m_iLevel.incr.val.toNat ++ text ++ nameSuffix c.cascadedAttribute⟩) := by
  unfold myTreeVisitor.visitEnterProductOccurrence nameSuffix
  cases acName conv name with
  | none => rfl
  | some text =>
    simp only [printMarkers_eq, String.empty_append, Option.map_some']
    cases c.cascadedAttribute with
    | none => simp
    | some k => cases hk : k.IsShow <;> simp [hk]

theorem visitEnterProductOccurrence_of_nameFits {D : Type} (conv : String → String)
    (self : myTreeVisitor) (base : A3DStatus) (name : Option String)
    (c : A3DVisitorContainer D) (h : nameFits conv name = true) :
    self.visitEnterProductOccurrence conv base name c
      = some ⟨base, ⟨self.m_iLevel.incr⟩,
          markers self.m_iLevel.incr.val.toNat ++ nodeName conv name
            ++ nameSuffix c.cascadedAttribute⟩ := by
  rw [visitEnterProductOccurrence_eq, acName_of_nameFits conv name h]
  rfl

theorem entered_append {D : Type} (a b : List (POCall D)) :
    entered (a ++ b) = entered a + entered b := by
  induction a with
  | nil => simp [entered]
  | cons c cs ih =>
    cases c with
    | enter base name k => simp [entered, ih]; omega
    | leave base => simp [entered, ih]

theorem exited_append {D : Type} (a b : List (POCall D)) :
    exited (a ++ b) = exited a + exited b := by
  induction a with
  | nil => simp [exited]
  | cons c cs ih =>
    cases c with
    | enter base name k => simp [exited, ih]
    | leave base => simp [exited, ih]; omega

theorem mem_inits_cons {D : Type} (c : POCall D) (p cs : List (POCall D))
    (h : p ∈ cs.inits) : c :: p ∈ (c :: cs).inits := by
  obtain ⟨t, ht⟩ := (List.mem_inits _ _).1 h
  exact (List.mem_inits _ _).2 ⟨t, by simp [ht]⟩

theorem mem_inits_append {D : Type} (p rest : List (POCall D)) : p ∈ (p ++ rest).inits :=
  (List.mem_inits _ _).2 ⟨rest, rfl⟩

theorem mem_inits_trans {D : Type} (p q cs : List (POCall D)) (hp : p ∈ q.inits)
    (hq : q ∈ cs.inits) : p ∈ cs.inits := by
  obtain ⟨t, ht⟩ := (List.mem_inits _ _).1 hp
  obtain ⟨u, hu⟩ := (List.mem_inits _ _).1 hq
  exact (List.mem_inits _ _).2 ⟨t ++ u, by rw [← List.append_assoc, ht, hu]⟩

theorem namesFit_of_mem_inits {D : Type} (conv : String → String) (p cs : List (POCall D))
    (hp : p ∈ cs.inits) (h : NamesFit conv cs) : NamesFit conv p := by
  obtain ⟨t, ht⟩ := (List.mem_inits _ _).1 hp
  intro c hc
  exact h c (by rw [← ht]; exact List.mem_append_left _ hc)

/-- While the names fit the buffer and the running depth stays inside the `int` range,
a sequence of callbacks runs to its end, and the counter afterwards is the starting
value plus the enters minus the leaves. -/
theorem run_level {D : Type} (conv : String → String) :
    ∀ (cs : List (POCall D)) (self : myTreeVisitor),
      NamesFit conv cs →
      (∀ pre ∈ cs.inits,
        INT_MIN ≤ self.m_iLevel.val + (entered pre : Int) - (exited pre : Int) ∧
        self.m_iLevel.val + (entered pre : Int) - (exited pre : Int) ≤ INT_MAX) →
      ∃ r, run conv self cs = some r ∧
        r.1.m_iLevel.val = self.m_iLevel.val + (entered cs : Int) - (exited cs : Int) := by
  intro cs
  induction cs with
  | nil => intro self _ _; exact ⟨(self, ""), rfl, by simp [entered, exited]⟩
  | cons c cs ih =>
    intro self hn h
    have h1 := h [c] (mem_inits_cons c [] cs ((List.mem_inits _ _).2 ⟨cs, rfl⟩))
    have hn1 := hn c (List.mem_cons_self _ _)
    have hn2 : NamesFit conv cs := fun d hd => hn d (List.mem_cons_of_mem _ hd)
    cases c with
    | enter base name k =>
      simp only [entered, exited] at h1
      have hstep : self.m_iLevel.incr.val = self.m_iLevel.val + 1 :=
        incr_val _ (by push_cast at h1; omega)
      obtain ⟨r, hr, hlvl⟩ := ih ⟨self.m_iLevel.incr⟩ hn2 (by
        intro pre hpre
        have h2 := h (POCall.enter base name k :: pre) (mem_inits_cons _ _ _ hpre)
        simp only [entered, exited] at h2
        simp only [hstep]
        push_cast at h2
        constructor <;> omega)
      refine ⟨(r.1, (markers self.m_iLevel.incr.val.toNat ++ nodeName conv name
        ++ nameSuffix k.cascadedAttribute) ++ r.2), ?_, ?_⟩
      · simp only [run, POCall.apply]
        rw [visitEnterProductOccurrence_of_nameFits conv self base name k hn1]
        simp only [hr]
      · simp only [entered, exited]
        rw [hlvl, hstep]
        push_cast
        omega
    | leave base =>
      simp only [entered, exited] at h1
      have hstep : self.m_iLevel.decr.val = self.m_iLevel.val - 1 :=
        decr_val _ (by push_cast at h1; omega)
      obtain ⟨r, hr, hlvl⟩ := ih ⟨self.m_iLevel.decr⟩ hn2 (by
        intro pre hpre
        have h2 := h (POCall.leave base :: pre) (mem_inits_cons _ _ _ hpre)
        simp only [entered, exited] at h2
        simp only [hstep]
        push_cast at h2
        constructor <;> omega)
      refine ⟨(r.1, "" ++ r.2), ?_, ?_⟩
      · simp only [run, POCall.apply, myTreeVisitor.visitLeaveProductOccurrence, hr]
      · simp only [entered, exited]
        rw [hlvl, hstep]
        push_cast
        omega

/-- From a fresh visitor, a well-nested sequence that fits the counter and the buffer
runs to its end and keeps the counter equal to the number of occurrences entered and not
yet left. -/
theorem run_level_new {D : Type} (conv : String → String) (cs : List (POCall D))
    (hnest : ∀ pre ∈ cs.inits, exited pre ≤ entered pre)
    (hfit : FitsInt cs) (hnames : NamesFit conv cs) :
    ∃ r, run conv myTreeVisitor.new cs = some r ∧
      r.1.m_iLevel.val = (entered cs : Int) - (exited cs : Int) := by
  obtain ⟨r, hr, hlvl⟩ := run_level conv cs myTreeVisitor.new hnames (by
    intro pre hpre
    have h1 := hnest pre hpre
    have h2 := hfit pre hpre
    simp only [myTreeVisitor.new, CInt.zero]
    unfold INT_MIN
    constructor <;> omega)
  exact ⟨r, hr, by simpa [myTreeVisitor.new, CInt.zero] using hlvl⟩

/-- The three callbacks hand back the status of the base callback whenever they return,
and neither the new level nor the printed text depends on that status. -/
theorem callbacks_keep_base_status {D : Type} (conv : String → String) (fmt3 : D → String)
    (self : myTreeVisitor) (name : Option String) (c : A3DVisitorContainer D)
    (s s2 : A3DStatus) :
    (self.visitEnterProductOccurrence conv s name c).map (fun v => v.iRet)
        = (acName conv name).map (fun _ => s)
      ∧ (self.visitLeaveProductOccurrence s).iRet = s
      ∧ (self.visitEnterPart fmt3 s c).map (fun v => v.iRet)
          = c.transformation.map (fun _ => s)
      ∧ (self.visitEnterProductOccurrence conv s name c).map (fun v => (v.self, v.out))
          = (self.visitEnterProductOccurrence conv s2 name c).map (fun v => (v.self, v.out))
      ∧ (self.visitLeaveProductOccurrence s).self = (self.visitLeaveProductOccurrence s2).self
      ∧ (self.visitLeaveProductOccurrence s).out = (self.visitLeaveProductOccurrence s2).out
      ∧ (self.visitEnterPart fmt3 s c).map (fun v => (v.self, v.out))
          = (self.visitEnterPart fmt3 s2 c).map (fun v => (v.self, v.out)) := by
  refine ⟨?_, rfl, ?_, ?_, rfl, rfl, ?_⟩
  · rw [visitEnterProductOccurrence_eq]
    cases acName conv name <;> rfl
  · unfold myTreeVisitor.visitEnterPart
    cases c.transformation <;> rfl
  · rw [visitEnterProductOccurrence_eq, visitEnterProductOccurrence_eq]
    cases acName conv name <;> rfl
  · unfold myTreeVisitor.visitEnterPart
    cases c.transformation <;> rfl

/-! ## The claims -/

/-- C1. Indentation equals depth: in a well-nested sequence of product-occurrence
callbacks on a fresh visitor (nesting depth within the range of the `int` counter, every
converted name of at most 255 units), the calls before an enter callback run to their
end and the enter callback returns, having printed `d` copies of the marker, then the
node name, then the end-of-line text, where `d` counts the occurrences entered and not
yet left, the current one included; a top-level occurrence gets one marker. -/
theorem indentation_equals_depth {D : Type} (conv : String → String)
    (cs pre rest : List (POCall D)) (base : A3DStatus) (name : Option String)
    (c : A3DVisitorContainer D)
    (hnest : WellNested cs) (hfit : FitsInt cs) (hnames : NamesFit conv cs)
    (hcs : cs = pre ++ POCall.enter base name c :: rest) :
    (∃ r v, run conv myTreeVisitor.new pre = some r
        ∧ r.1.visitEnterProductOccurrence conv base name c = some v
        ∧ v.out = markers (entered pre + 1 - exited pre) ++ nodeName conv name
            ++ nameSuffix c.cascadedAttribute)
      ∧ exited pre ≤ entered pre
      ∧ entered (pre ++ [POCall.enter base name c]) - exited (pre ++ [POCall.enter base name c])
          = entered pre + 1 - exited pre
      ∧ (entered pre = exited pre → entered pre + 1 - exited pre = 1) := by
  have hpre : pre ∈ cs.inits := by rw [hcs]; exact mem_inits_append _ _
  have hcur : pre ++ [POCall.enter base name c] ∈ cs.inits := by
    rw [hcs]
    exact (List.mem_inits _ _).2 ⟨rest, by simp⟩
  have hle : exited pre ≤ entered pre := hnest.1 pre hpre
  have hname : nameFits conv name = true :=
    hnames (POCall.enter base name c) (by rw [hcs]; simp)
  obtain ⟨r, hr, hlvl⟩ := run_level_new conv pre
    (fun p hp => hnest.1 p (mem_inits_trans p pre cs hp hpre))
    (fun p hp => hfit p (mem_inits_trans p pre cs hp hpre))
    (namesFit_of_mem_inits conv pre cs hpre hnames)
  have hmax := hfit _ hcur
  rw [entered_append, exited_append] at hmax
  simp only [entered, exited] at hmax
  push_cast at hmax
  have hstep := incr_val r.1.m_iLevel (by rw [hlvl]; omega)
  refine ⟨⟨r, _, hr, visitEnterProductOccurrence_of_nameFits conv r.1 base name c hname, ?_⟩,
    hle, ?_, ?_⟩
  · simp only [hstep, hlvl]
    congr 3
    omega
  · rw [entered_append, exited_append]
    simp only [entered, exited]
    omega
  · intro h
    omega

/-- C1, at the sequence enter Root, enter A, leave, leave: the line of A. -/
theorem indentation_equals_depth_witness :
    WellNested ([.enter 0 (some "Root") ⟨some ⟨true⟩, none⟩,
        .enter 0 (some "A") ⟨some ⟨false⟩, none⟩, .leave 0, .leave 0] : List (POCall Unit))
      ∧ FitsInt ([.enter 0 (some "Root") ⟨some ⟨true⟩, none⟩,
        .enter 0 (some "A") ⟨some ⟨false⟩, none⟩, .leave 0, .leave 0] : List (POCall Unit))
      ∧ NamesFit id ([.enter 0 (some "Root") ⟨some ⟨true⟩, none⟩,
        .enter 0 (some "A") ⟨some ⟨false⟩, none⟩, .leave 0, .leave 0] : List (POCall Unit))
      ∧ ∃ r v, run id myTreeVisitor.new
            ([.enter 0 (some "Root") ⟨some ⟨true⟩, none⟩] : List (POCall Unit)) = some r
          ∧ r.1.visitEnterProductOccurrence id 0 (some "A")
              (⟨some ⟨false⟩, none⟩ : A3DVisitorContainer Unit) = some v
          ∧ v.out = "+ + A (Hidden)\n" := by
  refine ⟨by unfold WellNested; decide, by unfold FitsInt; decide,
    by unfold NamesFit; decide, ?_⟩
  obtain ⟨r, v, hr, hv, hout⟩ :=
    (indentation_equals_depth id _ [.enter 0 (some "Root") ⟨some ⟨true⟩, none⟩]
      [.leave 0, .leave 0] 0 (some "A") (⟨some ⟨false⟩, none⟩ : A3DVisitorContainer Unit)
      (by unfold WellNested; decide) (by unfold FitsInt; decide)
      (by unfold NamesFit; decide) rfl).1
  exact ⟨r, v, hr, hv, hout.trans (by decide)⟩

/-- C2, as stated, fails: a shown node named `X (Hidden)` prints a line that ends with
the hidden mark before its newline although `IsShow()` is true. -/
theorem hidden_suffix_counterexample :
    (myTreeVisitor.new.visitEnterProductOccurrence id 0 (some "X (Hidden)")
        (⟨some ⟨true⟩, none⟩ : A3DVisitorContainer Unit)).map (fun v => v.out)
        = some "+ X (Hidden)\n"
      ∧ ¬ (endsWithHidden "+ X (Hidden)\n" = true
            ↔ (ColorMaterialsConnector.mk true).IsShow = false) := by
  decide

/-- C2, amended. With the `CascadedAttribute` peer registered and a converted name of at
most 255 units, the callback returns and its line is markers, name and then the hidden
mark with the newline exactly when `IsShow()` is false, so that the line of a node that
is not shown ends with the hidden mark before its newline; when `IsShow()` is true the
name is followed directly by the newline. -/
theorem hidden_suffix_after_name {D : Type} (conv : String → String)
    (self : myTreeVisitor) (base : A3DStatus) (name : Option String)
    (sColorConnector : ColorMaterialsConnector) (transformation : Option (A3DMatrix4x4 D))
    (hname : nameFits conv name = true) :
    ∃ v, self.visitEnterProductOccurrence conv base name
          ⟨some sColorConnector, transformation⟩ = some v
      ∧ v.out = markers self.m_iLevel.incr.val.toNat ++ nodeName conv name
          ++ (if sColorConnector.IsShow then "\n" else " (Hidden)\n")
      ∧ (v.out = markers self.m_iLevel.incr.val.toNat ++ nodeName conv name ++ " (Hidden)\n"
          ↔ sColorConnector.IsShow = false)
      ∧ (sColorConnector.IsShow = false → endsWithHidden v.out = true) := by
  refine ⟨_, visitEnterProductOccurrence_of_nameFits conv self base name _ hname, rfl, ?_, ?_⟩
  · simp only [nameSuffix]
    cases hk : sColorConnector.IsShow
    · simp
    · simp only [if_true, String.ext_iff, String.data_append, List.append_cancel_left_eq]
      decide
  · intro hk
    simp only [nameSuffix, hk, endsWithHidden, String.data_append]
    rw [List.isSuffixOf_iff_suffix]
    exact List.suffix_append _ _

/-- C2 amended, at a hidden node named A on the first level. -/
theorem hidden_suffix_after_name_witness :
    nameFits id (some "A") = true
      ∧ ∃ v, myTreeVisitor.new.visitEnterProductOccurrence id 0 (some "A")
            (⟨some ⟨false⟩, none⟩ : A3DVisitorContainer Unit) = some v
          ∧ v.out = "+ A (Hidden)\n" := by
  refine ⟨by decide, ?_⟩
  obtain ⟨v, hv, hout, _⟩ := hidden_suffix_after_name id myTreeVisitor.new 0 (some "A")
    ⟨false⟩ (none : Option (A3DMatrix4x4 Unit)) (by decide)
  exact ⟨v, hv, hout.trans (by decide)⟩

/-- C3. Without the `CascadedAttribute` peer the enter callback prints no newline: the
lines of two successive occurrences run together. -/
theorem no_newline_without_color_peer :
    (run id myTreeVisitor.new
      ([.enter 0 (some "Root") ⟨none, none⟩, .enter 0 (some "A") ⟨none, none⟩] :
        List (POCall Unit))).map (fun r => r.2) = some "+ Root+ + A" := by
  decide

/-- C4. When the lookup of `Transformation` yields null, the part callback dereferences
the null pointer: it produces no status and no output. -/
theorem part_enter_faults_without_transfo_peer {D : Type} (fmt3 : D → String)
    (self : myTreeVisitor) (base : A3DStatus)
    (cascadedAttribute : Option ColorMaterialsConnector) :
    self.visitEnterPart fmt3 base ⟨cascadedAttribute, none⟩ = none := rfl

/-- C5. Color peer not found: for a converted name of at most 255 units the occurrence
callback returns the base status, having printed the markers and the name and nothing
else (no hidden mark). -/
theorem color_peer_absent_omits_mark {D : Type} (conv : String → String)
    (self : myTreeVisitor) (base : A3DStatus) (name : Option String)
    (transformation : Option (A3DMatrix4x4 D)) (hname : nameFits conv name = true) :
    self.visitEnterProductOccurrence conv base name ⟨none, transformation⟩
      = some ⟨base, ⟨self.m_iLevel.incr⟩,
          markers self.m_iLevel.incr.val.toNat ++ nodeName conv name⟩ := by
  rw [visitEnterProductOccurrence_of_nameFits conv self base name _ hname]
  simp [nameSuffix]

/-- C5, at a node named Root on the first level. -/
theorem color_peer_absent_omits_mark_witness :
    nameFits id (some "Root") = true
      ∧ myTreeVisitor.new.visitEnterProductOccurrence id 7 (some "Root")
          (⟨none, none⟩ : A3DVisitorContainer Unit)
        = some ⟨7, ⟨myTreeVisitor.new.m_iLevel.incr⟩, "+ Root"⟩ :=
  ⟨by decide,
    (color_peer_absent_omits_mark id myTreeVisitor.new 7 (some "Root")
      (none : Option (A3DMatrix4x4 Unit)) (by decide)).trans (by decide)⟩

/-- C6. Missing name: a null `m_pcName` prints `NO_NAME` in the name position and the
callback returns the base status; for a present name whose conversion has at most 255
units the callback returns the same status and visitor, and the printed name is the
UTF-16 conversion of the name. -/
theorem missing_name_placeholder {D : Type} (conv : String → String)
    (self : myTreeVisitor) (base : A3DStatus) (c : A3DVisitorContainer D) (pcName : String)
    (hname : utf16Units (conv pcName) ≤ 255) :
    self.visitEnterProductOccurrence conv base none c
        = some ⟨base, ⟨self.m_iLevel.incr⟩,
            markers self.m_iLevel.incr.val.toNat ++ "NO_NAME"
              ++ nameSuffix c.cascadedAttribute⟩
      ∧ self.visitEnterProductOccurrence conv base (some pcName) c
        = some ⟨base, ⟨self.m_iLevel.incr⟩,
            markers self.m_iLevel.incr.val.toNat ++ conv pcName
              ++ nameSuffix c.cascadedAttribute⟩
      ∧ (self.visitEnterProductOccurrence conv base none c).map (fun v => (v.iRet, v.self))
        = (self.visitEnterProductOccurrence conv base (some pcName) c).map
            (fun v => (v.iRet, v.self)) := by
  have h1 := visitEnterProductOccurrence_of_nameFits conv self base none c rfl
  have h2 := visitEnterProductOccurrence_of_nameFits conv self base (some pcName) c
    (by simpa [nameFits] using hname)
  refine ⟨h1, h2, ?_⟩
  rw [h1, h2]
  rfl

/-- C6, at a node without a name beside a node named A. -/
theorem missing_name_placeholder_witness :
    utf16Units (id "A") ≤ 255
      ∧ myTreeVisitor.new.visitEnterProductOccurrence id 0 none
          (⟨some ⟨true⟩, none⟩ : A3DVisitorContainer Unit)
        = some ⟨0, ⟨myTreeVisitor.new.m_iLevel.incr⟩, "+ NO_NAME\n"⟩ :=
  ⟨by decide,
    (missing_name_placeholder id myTreeVisitor.new 0
      (⟨some ⟨true⟩, none⟩ : A3DVisitorContainer Unit) "A" (by decide)).1.trans (by decide)⟩

/-- C7. Part line: with the `Transformation` peer registered and the level counter
`L >= 0`, the part callback prints exactly `L` markers, then the elements 12, 13 and 14
of the global transform, each under `%.3f`, between brackets, then a newline; the level
and the status are untouched, and the marker count is that of the line of the enclosing
occurrence. -/
theorem part_line_content {D : Type} (conv : String → String) (fmt3 : D → String)
    (self : myTreeVisitor) (base : A3DStatus)
    (cascadedAttribute : Option ColorMaterialsConnector) (sTransfo : A3DMatrix4x4 D)
    (hL : 0 ≤ self.m_iLevel.val) :
    self.visitEnterPart fmt3 base ⟨cascadedAttribute, some sTransfo⟩
        = some ⟨base, self,
            markers self.m_iLevel.val.toNat ++ " (" ++ fmt3 (sTransfo.m_adM 12) ++ ", "
              ++ fmt3 (sTransfo.m_adM 13) ++ ", " ++ fmt3 (sTransfo.m_adM 14) ++ ")\n"⟩
      ∧ ∀ (parent : myTreeVisitor) (base0 : A3DStatus) (name : Option String)
          (c0 : A3DVisitorContainer D) (v : Visited),
          parent.visitEnterProductOccurrence conv base0 name c0 = some v →
          v.self = self →
          v.out = markers self.m_iLevel.val.toNat ++ nodeName conv name
              ++ nameSuffix c0.cascadedAttribute := by
  constructor
  · simp only [myTreeVisitor.visitEnterPart, printMarkers_eq, String.empty_append,
      toUnsigned_of_nonneg _ hL]
  · intro parent base0 name c0 v hv hself
    cases hfits : nameFits conv name with
    | false =>
      rw [visitEnterProductOccurrence_eq, acName_of_not_nameFits conv name hfits] at hv
      simp at hv
    | true =>
      rw [visitEnterProductOccurrence_of_nameFits conv parent base0 name c0 hfits] at hv
      have hv2 := Option.some.inj hv
      rw [← hself, ← hv2]

/-- C7, at level 2 with the translation (7, 8, 9). -/
theorem part_line_content_witness :
    (0 : Int) ≤ (myTreeVisitor.mk (CInt.wrap 2)).m_iLevel.val
      ∧ (myTreeVisitor.mk (CInt.wrap 2)).visitEnterPart
          (fun n : Nat => if n = 7 then "7.000" else if n = 8 then "8.000" else "9.000") 0
          ⟨none, some ⟨fun i => i.val - 5⟩⟩
        = some ⟨0, myTreeVisitor.mk (CInt.wrap 2), "+ +  (7.000, 8.000, 9.000)\n"⟩ :=
  ⟨by decide,
    ((part_line_content id
      (fun n : Nat => if n = 7 then "7.000" else if n = 8 then "8.000" else "9.000")
      (myTreeVisitor.mk (CInt.wrap 2)) 0 none ⟨fun i => i.val - 5⟩ (by decide)).1).trans
      (by decide)⟩

/-- C8. End-to-end visibility scenario: walking Root(hidden=false) -> A(hidden=true) ->
B(no override) under the configuration of `traverseModelFile` prints three lines, for
Root, A and B in this order, with one, two and three markers; the lines of A and B carry
the hidden mark and the line of Root does not. This is the outcome whenever the three
converted names fit the name buffer (as the names Root, A and B do under any faithful
conversion); the walk faults otherwise. -/
theorem scenario_root_a_b {D : Type} (sdk : Sdk D) :
    traverseModelFile sdk (scenarioTree D)
      = if (nameFits sdk.A3DMiscUTF8ToUTF16 (some "Root")
            && nameFits sdk.A3DMiscUTF8ToUTF16 (some "A")
            && nameFits sdk.A3DMiscUTF8ToUTF16 (some "B")) = true then
          some ("+ " ++ sdk.A3DMiscUTF8ToUTF16 "Root" ++ "\n"
            ++ "+ + " ++ sdk.A3DMiscUTF8ToUTF16 "A" ++ " (Hidden)\n"
            ++ "+ + + " ++ sdk.A3DMiscUTF8ToUTF16 "B" ++ " (Hidden)\n")
        else none := by
  cases hR : nameFits sdk.A3DMiscUTF8ToUTF16 (some "Root") with
  | false =>
    have := acName_of_not_nameFits _ _ hR
    simp [traverseModelFile, scenarioTree, traverse, visitEnterProductOccurrence_eq, this]
  | true =>
    have eR := acName_of_nameFits _ _ hR
    cases hA : nameFits sdk.A3DMiscUTF8ToUTF16 (some "A") with
    | false =>
      have := acName_of_not_nameFits _ _ hA
      simp [traverseModelFile, scenarioTree, traverse, traverseChildren,
        visitEnterProductOccurrence_eq, this, eR, A3D_SUCCESS]
    | true =>
      have eA := acName_of_nameFits _ _ hA
      cases hB : nameFits sdk.A3DMiscUTF8ToUTF16 (some "B") with
      | false =>
        have := acName_of_not_nameFits _ _ hB
        simp [traverseModelFile, scenarioTree, traverse, traverseChildren,
          visitEnterProductOccurrence_eq, this, eR, eA, A3D_SUCCESS]
      | true =>
        have eB := acName_of_nameFits _ _ hB
        simp [traverseModelFile, scenarioTree, traverse, traverseChildren, Container.push,
          Container.pop, Container.view, pushColor, pushTransfo,
          visitEnterProductOccurrence_eq, eR, eA, eB, nodeName, nameSuffix,
          myTreeVisitor.visitLeaveProductOccurrence,
          myTreeVisitor.new, A3D_SUCCESS, CInt.incr, CInt.wrap, CInt.zero, markers]
        apply String.ext
        simp [String.data_append, List.replicate]

/-- C9. Level counter balanced and never negative: a well-nested sequence of
product-occurrence callbacks on a fresh visitor (nesting depth within the range of the
`int` counter, every converted name of at most 255 units) runs to its end; after every
initial segment the counter is non-negative, equals enters minus leaves, and converts to
`unsigned` without change; after the whole sequence the visitor is as fresh again; and
the part callback leaves the visitor as it found it. -/
theorem level_counter_balanced {D : Type} (conv : String → String) (fmt3 : D → String)
    (cs : List (POCall D)) (hnest : WellNested cs) (hfit : FitsInt cs)
    (hnames : NamesFit conv cs) :
    (∀ pre ∈ cs.inits, ∃ r, run conv myTreeVisitor.new pre = some r
        ∧ 0 ≤ r.1.m_iLevel.val
        ∧ r.1.m_iLevel.val = (entered pre : Int) - (exited pre : Int)
        ∧ r.1.m_iLevel.toUnsigned = r.1.m_iLevel.val.toNat)
      ∧ (∃ out, run conv myTreeVisitor.new cs = some (myTreeVisitor.new, out))
      ∧ ∀ (self : myTreeVisitor) (base : A3DStatus) (c : A3DVisitorContainer D),
          (self.visitEnterPart fmt3 base c).map (fun v => v.self)
            = c.transformation.map (fun _ => self) := by
  have hseg : ∀ pre ∈ cs.inits, ∃ r, run conv myTreeVisitor.new pre = some r
      ∧ r.1.m_iLevel.val = (entered pre : Int) - (exited pre : Int) := fun pre hpre =>
    run_level_new conv pre
      (fun p hp => hnest.1 p (mem_inits_trans p pre cs hp hpre))
      (fun p hp => hfit p (mem_inits_trans p pre cs hp hpre))
      (namesFit_of_mem_inits conv pre cs hpre hnames)
  refine ⟨?_, ?_, ?_⟩
  · intro pre hpre
    have hle := hnest.1 pre hpre
    obtain ⟨r, hr, hlvl⟩ := hseg pre hpre
    have hnn : 0 ≤ r.1.m_iLevel.val := by rw [hlvl]; omega
    exact ⟨r, hr, hnn, hlvl, toUnsigned_of_nonneg _ hnn⟩
  · obtain ⟨r, hr, hlvl⟩ := hseg cs ((List.mem_inits _ _).2 ⟨[], by simp⟩)
    have hbal := hnest.2
    have hz : r.1.m_iLevel = CInt.zero :=
      CInt.ext_val _ _ (by rw [hlvl, hbal]; simp [CInt.zero])
    refine ⟨r.2, ?_⟩
    rw [hr]
    obtain ⟨⟨lvl⟩, out⟩ := r
    simp only at hz
    rw [hz]
    rfl
  · intro self base c
    unfold myTreeVisitor.visitEnterPart
    cases c.transformation <;> rfl

/-- C9, at the sequence enter, enter, leave, leave. -/
theorem level_counter_balanced_witness :
    WellNested ([.enter 0 none ⟨none, none⟩, .enter 0 none ⟨none, none⟩, .leave 0,
        .leave 0] : List (POCall Unit))
      ∧ FitsInt ([.enter 0 none ⟨none, none⟩, .enter 0 none ⟨none, none⟩, .leave 0,
        .leave 0] : List (POCall Unit))
      ∧ NamesFit id ([.enter 0 none ⟨none, none⟩, .enter 0 none ⟨none, none⟩, .leave 0,
        .leave 0] : List (POCall Unit))
      ∧ ∃ out, run id myTreeVisitor.new ([.enter 0 none ⟨none, none⟩,
          .enter 0 none ⟨none, none⟩, .leave 0, .leave 0] : List (POCall Unit))
          = some (myTreeVisitor.new, out) :=
  ⟨by unfold WellNested; decide, by unfold FitsInt; decide, by unfold NamesFit; decide,
    (level_counter_balanced id (fun _ : Unit => "0.000") _
      (by unfold WellNested; decide) (by unfold FitsInt; decide)
      (by unfold NamesFit; decide)).2.1⟩

/-- C10. Without the `Transformation` peer the part callback hands back no status at
all, whatever the base callback returned, while the two occurrence callbacks of the same
visitor return that status. -/
theorem part_status_lost_without_transfo_peer :
    (myTreeVisitor.new.visitEnterPart (fun _ : Unit => "0.000") A3D_SUCCESS
        ⟨some ⟨true⟩, none⟩).map (fun v => v.iRet) = none
      ∧ (myTreeVisitor.new.visitEnterProductOccurrence id A3D_SUCCESS (some "Root")
          (⟨some ⟨true⟩, none⟩ : A3DVisitorContainer Unit)).map (fun v => v.iRet)
        = some A3D_SUCCESS
      ∧ (myTreeVisitor.new.visitLeaveProductOccurrence A3D_SUCCESS).iRet = A3D_SUCCESS := by
  decide

end TraverseModelFile
